import Mathlib

/-!
Verification development for the architecture-graph synthesis and
reconciliation pipeline of the aiclouddesigner repository.

The definitions below are a shallow embedding of:
  - `src/utils/intentDetection.ts` (intent classifier and its fallback),
  - `src/components/ChatPanel.tsx`, function `handleArchitectureModification`
    (the edit/reconciliation path),
  - `src/supabase/functions/server/index.tsx`, route
    `POST .../api/generate-architecture` (the synthesis path).

JavaScript strings are `String`, JS numbers occurring in scores and
confidences are `ℚ` (all arithmetic used by the code on them is exact at
these magnitudes), absent/optional JS values are `Option`, and thrown
exceptions are `Except String`.  The host `JSON.parse` is modelled by an
executable recursive-descent parser `jsonParse` over the JSON fragment the
code exchanges (objects, arrays, strings with the common escapes, decimal
numbers without exponents, literals); `Date.now()` and `Math.random()`,
used only to mint fresh ids, are threaded as explicit parameters.
-/

namespace AiCloudDesigner

/-! ## Small string and JS-value helpers -/

/-- The character x7b, written via its code so that brace-free source text
stays brace-free. -/
def lbrace : Char := Char.ofNat 123

/-- The character x7d. -/
def rbrace : Char := Char.ofNat 125

/-- JS `haystack.includes(needle)`: substring containment. -/
def strContains (hay pat : String) : Bool :=
  hay.data.tails.any (fun t => pat.data.isPrefixOf t)

/-- JS `s.toLowerCase()` on the ASCII alphabet the code works with. -/
def strToLower (s : String) : String := String.mk (s.data.map Char.toLower)

/-- JS `s.startsWith(p)`. -/
def strStartsWith (s p : String) : Bool := p.data.isPrefixOf s.data

/-- JS `s.trim()`: strip leading and trailing whitespace. -/
def strTrim (s : String) : String :=
  String.mk (((s.data.dropWhile Char.isWhitespace).reverse.dropWhile
    Char.isWhitespace).reverse)

/-- JS truthiness of an optional string value: `undefined` and `""` are
falsy, every other string is truthy. -/
def truthyS : Option String → Bool
  | some s => s ≠ ""
  | none => false

/-- JS `a || d` for an optional string `a` and a string default `d`. -/
def jsOrS (a : Option String) (d : String) : String :=
  match a with
  | some s => if s = "" then d else s
  | none => d

example : strContains "hello world" "lo w" = true := by decide
example : strContains "abc" "cd" = false := by decide
example : jsOrS (some "") "d" = "d" := by rfl
example : jsOrS none "d" = "d" := by rfl
example : jsOrS (some "x") "d" = "x" := by rfl

/-! ## A model of JSON values and of the host JSON parser

`Json` models the values `JSON.parse` produces.  `jsonParse` is a
fuel-based recursive-descent parser for the JSON fragment exchanged by the
code: objects, arrays, double-quoted strings with the single-character
escapes, decimal numbers without exponents, `true`/`false`/`null`.
(`\uXXXX` escapes and exponent notation are outside the model.) -/

inductive Json where
  | null : Json
  | bool (b : Bool) : Json
  | num (q : ℚ) : Json
  | str (s : String) : Json
  | arr (l : List Json) : Json
  | obj (l : List (String × Json)) : Json

/-- Field lookup on a JSON object.  JS object literals and `JSON.parse`
let a later duplicate key overwrite an earlier one, so the last binding
wins; on non-objects every lookup is `undefined`. -/
def Json.getField : Json → String → Option Json
  | .obj l, k => l.foldl (fun acc kv => if kv.1 = k then some kv.2 else acc) none
  | _, _ => none

/-- JS truthiness of a JSON value. -/
def jsTruthyJson : Json → Bool
  | .null => false
  | .bool b => b
  | .num q => q ≠ 0
  | .str s => s ≠ ""
  | .arr _ => true
  | .obj _ => true

def jsonWs (c : Char) : Bool :=
  c = ' ' || c = '\n' || c = '\t' || c = '\r'

def skipWs (l : List Char) : List Char := l.dropWhile jsonWs

/-- Decode one single-character JSON string escape. -/
def escChar : Char → Option Char
  | '\"' => some '\"'
  | '\\' => some '\\'
  | '/' => some '/'
  | 'n' => some '\n'
  | 't' => some '\t'
  | 'r' => some '\r'
  | 'b' => some (Char.ofNat 8)
  | 'f' => some (Char.ofNat 12)
  | _ => none

/-- Parse the body of a string literal (opening quote already consumed);
returns the decoded characters and the rest of the input. -/
def pStringBody : Nat → List Char → Option (List Char × List Char)
  | 0, _ => none
  | _ + 1, [] => none
  | fuel + 1, c :: rest =>
    if c = '\"' then some ([], rest)
    else if c = '\\' then
      match rest with
      | [] => none
      | e :: r2 =>
        match escChar e with
        | some d => (pStringBody fuel r2).map (fun p => (d :: p.1, p.2))
        | none => none
    else (pStringBody fuel rest).map (fun p => (c :: p.1, p.2))

def digitsToNat (l : List Char) : Nat :=
  l.foldl (fun acc c => 10 * acc + (c.toNat - 48)) 0

/-- Parse a JSON number: optional minus sign, integer digits, optional
fractional digits.  The value digits `i₁…iₘ.f₁…fₖ` is assembled as the
exact rational with numerator `i·10^k + f` and denominator `10^k`. -/
def pNumber (l : List Char) : Option (Json × List Char) :=
  let (neg, l1) := match l with
    | '-' :: r => (true, r)
    | _ => (false, l)
  let intDigits := l1.takeWhile Char.isDigit
  let l2 := l1.dropWhile Char.isDigit
  if intDigits = [] then none
  else
    let i := digitsToNat intDigits
    let res : Option (ℚ × List Char) :=
      match l2 with
      | '.' :: r3 =>
        let fracDigits := r3.takeWhile Char.isDigit
        let r4 := r3.dropWhile Char.isDigit
        if fracDigits = [] then none
        else some (mkRat (i * 10 ^ fracDigits.length + digitsToNat fracDigits)
          (10 ^ fracDigits.length), r4)
      | _ => some (mkRat i 1, l2)
    res.map (fun p => (.num (if neg then -p.1 else p.1), p.2))

mutual

/-- Parse one JSON value. -/
def pValue : Nat → List Char → Option (Json × List Char)
  | 0, _ => none
  | fuel + 1, l =>
    match skipWs l with
    | [] => none
    | c :: rest =>
      if c = '\"' then
        (pStringBody fuel rest).map (fun p => (.str (String.mk p.1), p.2))
      else if c = lbrace then pObjBody fuel (skipWs rest)
      else if c = '[' then pArrBody fuel (skipWs rest)
      else if c = 't' then
        match rest with
        | 'r' :: 'u' :: 'e' :: r => some (.bool true, r)
        | _ => none
      else if c = 'f' then
        match rest with
        | 'a' :: 'l' :: 's' :: 'e' :: r => some (.bool false, r)
        | _ => none
      else if c = 'n' then
        match rest with
        | 'u' :: 'l' :: 'l' :: r => some (.null, r)
        | _ => none
      else pNumber (c :: rest)

/-- Parse the inside of an object (opening brace consumed, leading
whitespace skipped). -/
def pObjBody : Nat → List Char → Option (Json × List Char)
  | 0, _ => none
  | fuel + 1, l =>
    match l with
    | [] => none
    | c :: rest =>
      if c = rbrace then some (.obj [], rest)
      else (pMembers fuel (c :: rest)).map (fun p => (.obj p.1, p.2))

/-- Parse one or more `"key": value` members followed by the closing
brace. -/
def pMembers : Nat → List Char → Option (List (String × Json) × List Char)
  | 0, _ => none
  | fuel + 1, l =>
    match skipWs l with
    | '\"' :: rest =>
      match pStringBody fuel rest with
      | none => none
      | some (key, r1) =>
        match skipWs r1 with
        | ':' :: r2 =>
          match pValue fuel r2 with
          | none => none
          | some (v, r3) =>
            match skipWs r3 with
            | ',' :: r4 => (pMembers fuel r4).map (fun p => ((String.mk key, v) :: p.1, p.2))
            | c :: r5 =>
              if c = rbrace then some ([(String.mk key, v)], r5) else none
            | [] => none
        | _ => none
    | _ => none

/-- Parse the inside of an array (opening bracket consumed, leading
whitespace skipped). -/
def pArrBody : Nat → List Char → Option (Json × List Char)
  | 0, _ => none
  | fuel + 1, l =>
    match l with
    | [] => none
    | ']' :: rest => some (.arr [], rest)
    | l' => (pElems fuel l').map (fun p => (.arr p.1, p.2))

/-- Parse one or more array elements followed by the closing bracket. -/
def pElems : Nat → List Char → Option (List Json × List Char)
  | 0, _ => none
  | fuel + 1, l =>
    match pValue fuel l with
    | none => none
    | some (v, r1) =>
      match skipWs r1 with
      | ',' :: r2 => (pElems fuel r2).map (fun p => (v :: p.1, p.2))
      | ']' :: r3 => some ([v], r3)
      | _ => none

end

/-- Model of the host `JSON.parse`: parse one value and require that only
whitespace remains; any failure is a thrown `SyntaxError`, modelled as
`none`. -/
def jsonParse (s : String) : Option Json :=
  match pValue (2 * s.length + 16) s.data with
  | some (v, rest) => if skipWs rest = [] then some v else none
  | none => none

example : jsonParse "true" = some (.bool true) := by rfl
example : jsonParse " null " = some .null := by rfl
example : jsonParse "[1, 2]" = some (.arr [.num 1, .num 2]) := by rfl
example : jsonParse "\x7b\"a\": 1\x7d" = some (.obj [("a", .num 1)]) := by rfl
example : jsonParse "\x7b\"a\": \"b c\", \"d\": [true]\x7d"
    = some (.obj [("a", .str "b c"), ("d", .arr [.bool true])]) := by rfl
example : (match jsonParse "-1.5" with | some (.num q) => (q.num, q.den) | _ => (0, 1))
    = (-3, 2) := by rfl
example : jsonParse "hello" = none := by rfl
example : jsonParse "" = none := by rfl
example : jsonParse "\x7b\"a\": 1" = none := by rfl

/-! ## Intent detection (`src/utils/intentDetection.ts`)

`ChatIntent` is the enum of the five intents; `INTENT_PATTERNS` copies the
per-intent keyword lists; `detectIntentWithPatterns` is the deterministic
fallback classifier; `detectIntentWithAI` is the model-backed classifier
whose single network call is abstracted as a `ModelCallOutcome` value; and
`detectIntent` is the public entry point. -/

inductive ChatIntent where
  | generate_architecture : ChatIntent
  | ask_question : ChatIntent
  | explain_component : ChatIntent
  | modify_architecture : ChatIntent
  | general_chat : ChatIntent
deriving DecidableEq, Repr

structure IntentResult where
  intent : ChatIntent
  confidence : ℚ
  explanation : Option String
deriving DecidableEq, Repr

/-- Keyword patterns for fallback detection, verbatim from the source. -/
def INTENT_PATTERNS : ChatIntent → List String
  | .generate_architecture =>
    ["create", "build", "design", "develop", "make", "set up", "setup",
     "i need", "i want", "build me", "create me", "design me",
     "architecture", "system", "application", "platform", "solution",
     "web app", "api", "database", "serverless", "microservice"]
  | .ask_question =>
    ["what is", "what are", "how does", "how do", "explain", "tell me about",
     "what", "how", "why", "when", "where", "which", "who",
     "?", "question", "help me understand", "can you explain"]
  | .explain_component =>
    ["this component", "this service", "this resource", "the storage", "the database",
     "the api", "the function", "explain this", "what does this do",
     "how does this work", "tell me about this", "describe this"]
  | .modify_architecture =>
    ["add", "remove", "delete", "change", "modify", "update", "replace",
     "swap", "connect", "disconnect", "edit", "alter", "adjust",
     "include", "exclude", "integrate", "remove this", "add a"]
  | .general_chat =>
    ["hello", "hi", "hey", "thanks", "thank you", "good", "great",
     "awesome", "perfect", "nice", "cool", "ok", "okay"]

/-- The enumeration order of the `scores` record literal and of
`INTENT_PATTERNS`: the order `Object.entries` iterates in the source. -/
def intentOrder : List ChatIntent :=
  [.generate_architecture, .ask_question, .explain_component,
   .modify_architecture, .general_chat]

/-- Position of an intent in `intentOrder`. -/
def intentIdx : ChatIntent → Nat
  | .generate_architecture => 0
  | .ask_question => 1
  | .explain_component => 2
  | .modify_architecture => 3
  | .general_chat => 4

/-- One intent's keyword score: the `patterns.forEach` loop adding 1 per
pattern contained in the lower-cased message. -/
def rawScore (lowerMessage : String) (patterns : List String) : ℚ :=
  patterns.foldl (fun acc p => if strContains lowerMessage p then acc + 1 else acc) 0

/-- The `scores` record, one field per intent. -/
structure Scores where
  generate : ℚ
  ask : ℚ
  explain : ℚ
  modify : ℚ
  general : ℚ
deriving DecidableEq, Repr

def scoreOf (s : Scores) : ChatIntent → ℚ
  | .generate_architecture => s.generate
  | .ask_question => s.ask
  | .explain_component => s.explain
  | .modify_architecture => s.modify
  | .general_chat => s.general

/-- Keyword scores plus the contextual adjustments: the 0.1 penalty on
explain/modify when no architecture exists, then the +2 question-mark
bonus on ask-question. -/
def scoresFor (lowerMessage : String) (hasArchitecture : Bool) : Scores :=
  let base : Scores :=
    { generate := rawScore lowerMessage (INTENT_PATTERNS .generate_architecture)
      ask := rawScore lowerMessage (INTENT_PATTERNS .ask_question)
      explain := rawScore lowerMessage (INTENT_PATTERNS .explain_component)
      modify := rawScore lowerMessage (INTENT_PATTERNS .modify_architecture)
      general := rawScore lowerMessage (INTENT_PATTERNS .general_chat) }
  let s := if hasArchitecture then base
    else { base with explain := base.explain * (mkRat 1 10),
                     modify := base.modify * (mkRat 1 10) }
  if strContains lowerMessage "?" then { s with ask := s.ask + 2 } else s

/-- Model of `Math.max(...Object.values(scores))`. -/
def maxScore (s : Scores) : ℚ :=
  max s.generate (max s.ask (max s.explain (max s.modify s.general)))

/-- Fallback pattern-based intent detection (`detectIntentWithPatterns`).
`bestIntent` is the `Object.entries(scores).find(...)` step: the first
intent in enumeration order whose score equals the maximum; since the
record is non-empty it always finds one, so the `||` default that follows
it in the source is dead code, but it is modelled faithfully via
`Option.getD`. -/
def detectIntentWithPatterns (message : String) (hasArchitecture : Bool) : IntentResult :=
  let lowerMessage := strToLower message
  let s := scoresFor lowerMessage hasArchitecture
  let m := maxScore s
  let bestIntent := intentOrder.find? (fun i => scoreOf s i == m)
  let finalIntent := bestIntent.getD
    (if hasArchitecture then .ask_question else .generate_architecture)
  { intent := finalIntent
    confidence := if m > 0 then min (m / 3) 1 else mkRat 3 10
    explanation := some ("Pattern-based detection (score: " ++ toString m ++ ")") }

/-- Outcome of the one `fetch` to the model endpoint made by
`detectIntentWithAI`: the request throws, returns a non-2xx status, has a
missing/undefined message content, or yields a content string. -/
inductive ModelCallOutcome where
  | networkError : ModelCallOutcome
  | httpError (status : Nat) : ModelCallOutcome
  | noContent : ModelCallOutcome
  | content (s : String) : ModelCallOutcome

/-- Model of `normalizedIntent.toLowerCase().replace(/[\s-]/g, '_')` (the JS `\s`
class is modelled by `Char.isWhitespace`). -/
def normalizeIntentLabel (s : String) : String :=
  String.mk ((strToLower s).data.map (fun c => if c.isWhitespace || c = '-' then '_' else c))

/-- The `intentMapping` lookup table: lower-case and upper-case spellings
of the five intents. -/
def intentMapping : String → Option ChatIntent := fun k =>
  List.lookup k
    [("generate_architecture", ChatIntent.generate_architecture),
     ("ask_question", ChatIntent.ask_question),
     ("explain_component", ChatIntent.explain_component),
     ("modify_architecture", ChatIntent.modify_architecture),
     ("general_chat", ChatIntent.general_chat),
     ("GENERATE_ARCHITECTURE", ChatIntent.generate_architecture),
     ("ASK_QUESTION", ChatIntent.ask_question),
     ("EXPLAIN_COMPONENT", ChatIntent.explain_component),
     ("MODIFY_ARCHITECTURE", ChatIntent.modify_architecture),
     ("GENERAL_CHAT", ChatIntent.general_chat)]

/-- The success path of `detectIntentWithAI` applied to the model's raw
message content: trim it, reject it when empty, `JSON.parse` it, read and
normalize the `intent` field, map it through `intentMapping` (first the
normalized then the raw spelling), clamp the confidence
(`Math.min(Math.max(result.confidence || 0.5, 0), 1)`), and keep the
optional explanation.  `none` is any thrown classification error. -/
def parseIntentResponse (content : String) : Option IntentResult :=
  let t := strTrim content
  if t = "" then none
  else
    match jsonParse t with
    | none => none
    | some j =>
      match j.getField "intent" with
      | some (.str v) =>
        match (intentMapping (normalizeIntentLabel v)).orElse (fun _ => intentMapping v) with
        | some finalIntent =>
          let c0 : ℚ := match j.getField "confidence" with
            | some (.num q) => if q = 0 then mkRat 1 2 else q
            | _ => mkRat 1 2
          some { intent := finalIntent
                 confidence := min (max c0 0) 1
                 explanation := match j.getField "explanation" with
                   | some (.str e) => some e
                   | _ => none }
        | none => none
      | _ => none

/-- Model of `detectIntentWithAI`: every failure of the model path (thrown fetch,
non-OK response, empty content, unparseable JSON, unrecognized intent
label) is caught and answered by the pattern fallback. -/
def detectIntentWithAI (message : String) (hasArchitecture : Bool)
    (outcome : ModelCallOutcome) : IntentResult :=
  match outcome with
  | .content s =>
    match parseIntentResponse s with
    | some r => r
    | none => detectIntentWithPatterns message hasArchitecture
  | _ => detectIntentWithPatterns message hasArchitecture

/-- Model of `detectIntent`: model-backed when an API key is supplied, otherwise
directly the pattern fallback. -/
def detectIntent (message : String) (hasArchitecture : Bool)
    (apiKey : Option String) (outcome : ModelCallOutcome) : IntentResult :=
  match apiKey with
  | some _ => detectIntentWithAI message hasArchitecture outcome
  | none => detectIntentWithPatterns message hasArchitecture

/-- The model-path failure conditions of `detectIntentWithAI`. -/
def modelCallFails (o : ModelCallOutcome) : Bool :=
  match o with
  | .content s => (parseIntentResponse s).isNone
  | _ => true

/-! ## Graph data model

The shapes the pipeline actually passes around.  Nodes produced by the
server and by the edit path's `add` action carry `id`/`label`/`product`/
`type`/`config` at top level (the JS field `type` is `ntype` here); the
edit path's `modify` action additionally writes a `data` sub-object, so a
node optionally carries one.  Edges produced by the server carry
`source`/`target`/`label`; edges minted by the edit path also set
`id`/`type`/`animated` (the constant `style` literal is not modelled). -/

structure NodeData where
  label : String
  product : String
  ntype : String
deriving DecidableEq, Repr

structure JNode where
  id : String
  label : String
  product : String
  ntype : String
  config : Option Json := none
  data : Option NodeData := none

structure AEdge where
  id : Option String := none
  source : String
  target : String
  label : String := ""
  etype : Option String := none
  animated : Bool := false

structure Architecture where
  id : String
  nodes : List JNode
  edges : List AEdge
  description : String
  components : List String

/-- The spec's structural invariant: every edge's source and target id
exists in the node set. -/
def graphClosed (nodes : List JNode) (edges : List AEdge) : Bool :=
  edges.all (fun e =>
    nodes.any (fun n => n.id = e.source) && nodes.any (fun n => n.id = e.target))

/-! ## The synthesis endpoint
(`src/supabase/functions/server/index.tsx`, `POST .../api/generate-architecture`)

After `JSON.parse(data.choices[0].message.content)` succeeds, the endpoint
stores and returns `content.nodes`, `content.edges`, `content.description`
and `content.components || []` exactly as the model produced them — no
validation, filtering or repair happens on this path. -/

/-- The parsed model `content` of a successful generation call. -/
structure GenContent where
  nodes : List JNode
  edges : List AEdge
  description : String
  components : Option (List String) := none

/-- The response assembled by the generate-architecture endpoint (lines
185–205): a fresh `arch_<timestamp>` id around the model data, passed
through unchanged.  `Date.now()` is the `now` parameter. -/
def generateArchitecture (content : GenContent) (now : Nat) : Architecture :=
  { id := "arch_" ++ toString now
    nodes := content.nodes
    edges := content.edges
    description := content.description
    components := content.components.getD [] }

/-- The endpoint's parse step (line 178):
`JSON.parse(data.choices[0].message.content)` applied to the raw content,
with no fence stripping or brace extraction; `none` is the thrown
`SyntaxError` that the surrounding catch turns into a 500 error. -/
def serverParseContent (content : String) : Option Json :=
  jsonParse content

/-! ## The edit path: response cleaning and parsing
(`src/components/ChatPanel.tsx`, `handleArchitectureModification`) -/

/-- JS `s.endsWith(p)`. -/
def strEndsWith (s p : String) : Bool := p.data.reverse.isPrefixOf s.data.reverse

/-- One `replace(/^<tag>\s*/, '')`: strip a leading fence tag and the
whitespace after it. -/
def stripFenceStart (tag : String) (s : String) : String :=
  if strStartsWith s tag then
    String.mk ((s.data.drop tag.length).dropWhile Char.isWhitespace)
  else s

/-- One `replace(/\s*<backticks>$/, '')`: strip a trailing triple-backtick
fence and the whitespace before it. -/
def stripFenceEnd (s : String) : String :=
  if strEndsWith s "```" then
    String.mk (((s.data.take (s.data.length - 3)).reverse.dropWhile
      Char.isWhitespace).reverse)
  else s

/-- JS `indexOf` on characters: index of the first occurrence. -/
def idxOfAux (p : Char → Bool) : List Char → Option Nat
  | [] => none
  | c :: rest => if p c then some 0 else (idxOfAux p rest).map (· + 1)

/-- Lines 234–239: take the substring from the first x7b to the last x7d
when both exist in that order, else leave the string unchanged. -/
def extractBraces (s : String) : String :=
  let openBrace := idxOfAux (fun c => c = lbrace) s.data
  let closeBrace := (idxOfAux (fun c => c = rbrace) s.data.reverse).map
    (fun i => s.data.length - 1 - i)
  match openBrace, closeBrace with
  | some o, some c => if o < c then String.mk ((s.data.drop o).take (c + 1 - o)) else s
  | _, _ => s

/-- Lines 230–239: trim, strip a ```json fence, strip a bare ``` fence,
then extract the outermost brace span. -/
def cleanJson (aiResponse : String) : String :=
  let c0 := strTrim aiResponse
  let c1 := stripFenceEnd (stripFenceStart "```json" c0)
  let c2 := stripFenceEnd (stripFenceStart "```" c1)
  extractBraces c2

/-- One entry of the model's `modifications` array.  Payload fields of
non-string JSON type are modelled as absent (the JS code would carry them
into comparisons that a non-string can never win). -/
structure Modification where
  action : Option String := none
  nodeId : Option String := none
  label : Option String := none
  product : Option String := none
  mtype : Option String := none
  config : Option Json := none

/-- One entry of the model's `newEdges` array. -/
structure NewEdgeSpec where
  id : Option String := none
  source : Option String := none
  target : Option String := none
  label : Option String := none
  etype : Option String := none
  animated : Option Json := none

structure ModificationPlan where
  description : String
  modifications : List Modification
  newEdges : List NewEdgeSpec

def strFieldOf (o : List (String × Json)) (k : String) : Option String :=
  match Json.getField (.obj o) k with
  | some (.str s) => some s
  | _ => none

def modOfObj (o : List (String × Json)) : Modification :=
  { action := strFieldOf o "action"
    nodeId := strFieldOf o "nodeId"
    label := strFieldOf o "label"
    product := strFieldOf o "product"
    mtype := strFieldOf o "type"
    config := Json.getField (.obj o) "config" }

def newEdgeOfObj (o : List (String × Json)) : NewEdgeSpec :=
  { id := strFieldOf o "id"
    source := strFieldOf o "source"
    target := strFieldOf o "target"
    label := strFieldOf o "label"
    etype := strFieldOf o "type"
    animated := Json.getField (.obj o) "animated" }

/-- Decode the `modifications` array.  A non-object entry makes the
source's in-place normalization loop throw (strict-mode property
assignment on a primitive or on `null`) inside the same `try` block,
before any graph state is touched; the model surfaces that throw at
decode time. -/
def decodeMods (l : List Json) : Except String (List Modification) :=
  l.mapM (fun j =>
    match j with
    | .obj o => .ok (modOfObj o)
    | _ => .error "AI response parsing failed: invalid modification entry")

/-- Decode `modificationPlan.newEdges` under `if (modificationPlan.newEdges)`:
a falsy value is skipped; a truthy non-array makes `forEach` throw; a
`null` array entry throws on its first property read; any other non-object
entry reads as all-undefined fields. -/
def decodeNewEdges (v : Option Json) : Except String (List NewEdgeSpec) :=
  match v with
  | none => .ok []
  | some j =>
    if jsTruthyJson j then
      match j with
      | .arr l =>
        l.mapM (fun e =>
          match e with
          | .obj o => .ok (newEdgeOfObj o)
          | .null => .error "TypeError: cannot read properties of null"
          | _ => .ok {})
      | _ => .error "TypeError: newEdges.forEach is not a function"
    else .ok []

/-- Lines 241–247 minus the product normalization: parse the cleaned
response and require `modifications` to be an array. -/
def planOfJson (j : Json) : Except String ModificationPlan :=
  match j.getField "modifications" with
  | some (.arr l) =>
    match decodeMods l with
    | .error e => .error e
    | .ok mods =>
      match decodeNewEdges (j.getField "newEdges") with
      | .error e => .error e
      | .ok nes =>
        .ok { description := (match j.getField "description" with
                | some (.str d) => d
                | _ => "")
              modifications := mods
              newEdges := nes }
  | _ => .error "AI response parsing failed: Invalid modifications array"

/-- The edit path's parse stage: clean the raw model content, `JSON.parse`
it, and validate/decode the plan.  Every failure here is caught by the
source before any graph state is touched. -/
def parseModificationPlan (aiResponse : String) : Except String ModificationPlan :=
  match jsonParse (cleanJson aiResponse) with
  | none => .error "AI response parsing failed: SyntaxError"
  | some j => planOfJson j

/-! ## The edit path: product-name normalization (lines 249–283) -/

/-- The `azureServiceMap` table, verbatim. -/
def azureServiceMap : List (String × String) :=
  [("power bi", "Power BI"),
   ("powerbi", "Power BI"),
   ("redis", "Azure Redis Cache"),
   ("cache", "Azure Redis Cache"),
   ("storage", "Azure Blob Storage"),
   ("blob storage", "Azure Blob Storage"),
   ("sql database", "Azure SQL Database"),
   ("database", "Azure SQL Database"),
   ("application insights", "Azure Application Insights"),
   ("insights", "Azure Application Insights"),
   ("key vault", "Azure Key Vault"),
   ("cosmos db", "Azure Cosmos DB")]

/-- Lines 251–254: default a missing label to "New Service" and a missing
product to the (possibly just-defaulted) label, falling back to
"Azure Service". -/
def defaultLabelProduct (m : Modification) : Modification :=
  if !truthyS m.label || !truthyS m.product then
    let lbl := jsOrS m.label "New Service"
    let prd := jsOrS m.product (jsOrS (some lbl) "Azure Service")
    { m with label := some lbl, product := some prd }
  else m

/-- Lines 256–282: when the product is truthy and neither starts with
"azure" nor contains "microsoft" (case-insensitively), replace it by its
`azureServiceMap` image, or — unless its lower-casing contains
"power bi" — give it an "Azure " product name. -/
def renameAzureProduct (m : Modification) : Modification :=
  match m.product with
  | some p =>
    if (p ≠ "") && !strStartsWith (strToLower p) "azure"
        && !strContains (strToLower p) "microsoft" then
      let normalizedProduct := strToLower p
      match List.lookup normalizedProduct azureServiceMap with
      | some azureService => { m with product := some azureService }
      | none =>
        if !strContains normalizedProduct "power bi" then
          { m with product := some ("Azure " ++ p) }
        else m
    else m
  | none => m

/-- The whole in-place fix-up of one modification (the body of the
normalization `forEach`). -/
def fixModification (m : Modification) : Modification :=
  renameAzureProduct (defaultLabelProduct m)

def fixPlan (plan : ModificationPlan) : ModificationPlan :=
  { plan with modifications := plan.modifications.map fixModification }

/-! ## The edit path: applying the plan (lines 290–410) -/

/-- The config bag synthesized for an `add` whose payload had no truthy
config. -/
def defaultAddConfig : Json :=
  .obj [("tier", .str "Standard"),
        ("region", .str "East US"),
        ("rationale", .str "Service added via AI modification"),
        ("technicalDetails", .str "AI-generated service component"),
        ("features", .arr [.str "Standard features"]),
        ("useCases", .arr [.str "General purpose"]),
        ("bestPractices", .arr [.str "Follow Azure best practices"])]

/-- The node literal built by the `add` branch (lines 305–319);
`node-${Date.now()}` is `"node-" ++ toString now`. -/
def newNodeOf (m : Modification) (now : Nat) : JNode :=
  { id := jsOrS m.nodeId ("node-" ++ toString now)
    label := jsOrS m.label "New Service"
    product := jsOrS m.product "Azure Service"
    ntype := jsOrS m.mtype "service"
    config := some (match m.config with
      | some c => if jsTruthyJson c then c else defaultAddConfig
      | none => defaultAddConfig)
    data := none }

/-- Model of `mod.f || node.data.f`: the payload field when truthy, else a read
through `node.data` — which throws a TypeError when `data` is absent. -/
def jsOrDataField (v : Option String) (d : Option NodeData)
    (f : NodeData → String) : Except String String :=
  match v with
  | some s =>
    if s = "" then
      match d with
      | some nd => .ok (f nd)
      | none => .error "TypeError: cannot read properties of undefined"
    else .ok s
  | none =>
    match d with
    | some nd => .ok (f nd)
    | none => .error "TypeError: cannot read properties of undefined"

/-- The `modify` branch's node update (lines 329–337): spread the old
node and overwrite only its `data` sub-object; the top-level fields keep
their values.  Field reads happen in source order label, product, type,
so the first absent payload field on a node without a `data` bag is the
one that throws. -/
def modifyNode (m : Modification) (n : JNode) : Except String JNode :=
  match jsOrDataField m.label n.data (fun nd => nd.label) with
  | .error e => .error e
  | .ok lbl =>
    match jsOrDataField m.product n.data (fun nd => nd.product) with
    | .error e => .error e
    | .ok prd =>
      match jsOrDataField m.mtype n.data (fun nd => nd.ntype) with
      | .error e => .error e
      | .ok ty => .ok { n with data := some { label := lbl, product := prd, ntype := ty } }

/-- Model of `findIndex` plus in-place assignment: replace the first node whose id
matches. -/
def modifyFirst (m : Modification) (nid : String) :
    List JNode → Except String (List JNode)
  | [] => .ok []
  | n :: rest =>
    if n.id = nid then
      match modifyNode m n with
      | .error e => .error e
      | .ok n' => .ok (n' :: rest)
    else
      match modifyFirst m nid rest with
      | .error e => .error e
      | .ok rest' => .ok (n :: rest')

/-- One iteration of the modification loop (lines 295–340).  `add` pushes
the new node; `remove` filters the node id out of the nodes and both
endpoints out of the edges; `modify` rewrites the first matching node's
`data`; any other action is ignored.  A `remove`/`modify` without a
`nodeId` compares ids against `undefined` and so changes nothing. -/
def applyModStep (now : Nat) (acc : List JNode × List AEdge) (m : Modification) :
    Except String (List JNode × List AEdge) :=
  if m.action = some "add" then
    .ok (acc.1 ++ [newNodeOf m now], acc.2)
  else if m.action = some "remove" then
    match m.nodeId with
    | some nid =>
      .ok (acc.1.filter (fun n => n.id ≠ nid),
           acc.2.filter (fun e => e.source ≠ nid && e.target ≠ nid))
    | none => .ok acc
  else if m.action = some "modify" then
    match m.nodeId with
    | some nid =>
      match modifyFirst m nid acc.1 with
      | .error e => .error e
      | .ok ns => .ok (ns, acc.2)
    | none => .ok acc
  else .ok acc

/-- The edge literal built for an accepted new edge (lines 359–367);
`edge-${Date.now()}-${random}` is assembled from `now` and `rand`. -/
def mkNewEdge (e : NewEdgeSpec) (s t : String) (now : Nat) (rand : String) : AEdge :=
  { id := some (jsOrS e.id ("edge-" ++ toString now ++ "-" ++ rand))
    source := s
    target := t
    label := jsOrS e.label ""
    etype := some (jsOrS e.etype "smoothstep")
    animated := (match e.animated with
      | some v => jsTruthyJson v
      | none => false) }

/-- The `newEdges` loop (lines 343–370): an edge is appended only when
both endpoints exist in the post-modification node set; otherwise it is
skipped with a logged warning. -/
def addNewEdges (now : Nat) (rand : String) (nodes : List JNode)
    (edges : List AEdge) (nes : List NewEdgeSpec) : List AEdge :=
  nes.foldl (fun es e =>
    match e.source, e.target with
    | some s, some t =>
      if nodes.any (fun n => n.id = s) then
        if nodes.any (fun n => n.id = t) then es ++ [mkNewEdge e s t now rand]
        else es
      else es
    | _, _ => es) edges

/-- The edit path's user-node test (lines 374–382): type exactly `user`,
or product containing `user`, or label containing `user`, `scientist`,
`developer` or `admin` (case-insensitively). -/
def isUserNode (n : JNode) : Bool :=
  n.ntype = "user" || strContains (strToLower n.product) "user" ||
    (strContains (strToLower n.label) "user" ||
     strContains (strToLower n.label) "scientist" ||
     strContains (strToLower n.label) "developer" ||
     strContains (strToLower n.label) "admin")

/-- The final filter pass (lines 372–403): drop user nodes; only when that
changed the node count, re-filter the edges to those whose endpoints both
survive. -/
def userFilterPhase (nodes : List JNode) (edges : List AEdge) :
    List JNode × List AEdge :=
  let nodes' := nodes.filter (fun n => !(isUserNode n))
  if nodes.length ≠ nodes'.length then
    let nodeIds := nodes'.map (fun n => n.id)
    (nodes', edges.filter (fun e => nodeIds.contains e.source && nodeIds.contains e.target))
  else (nodes', edges)

/-- Apply a decoded (and already product-normalized) plan to the current
architecture: the modification loop, then the new-edge loop, then the
user-node filter, then the `{...architecture, nodes, edges}` update. -/
def applyPlan (arch : Architecture) (plan : ModificationPlan)
    (now : Nat) (rand : String) : Except String Architecture :=
  match plan.modifications.foldlM (applyModStep now) (arch.nodes, arch.edges) with
  | .error e => .error e
  | .ok acc =>
    let es2 := addNewEdges now rand acc.1 acc.2 plan.newEdges
    let p := userFilterPhase acc.1 es2
    .ok { arch with nodes := p.1, edges := p.2 }

/-- The edit operation on a decoded plan: product fix-up then application. -/
def runModificationPlan (arch : Architecture) (plan : ModificationPlan)
    (now : Nat) (rand : String) : Except String Architecture :=
  applyPlan arch (fixPlan plan) now rand

/-- Model of `handleArchitectureModification` from the model's raw response content
onward: clean/parse/validate, normalize products, apply.  An `error`
result models the catch branch, which posts an error message and never
calls `onArchitectureUpdate` — the caller's graph is left untouched. -/
def handleArchitectureModification (arch : Architecture) (aiResponse : String)
    (now : Nat) (rand : String) : Except String Architecture :=
  match parseModificationPlan aiResponse with
  | .error e => .error e
  | .ok plan => applyPlan arch (fixPlan plan) now rand

/-! ## Invariant-preservation lemmas for the edit pipeline -/

/-- Propositional form of the no-dangling-edges invariant. -/
def ClosedP (ns : List JNode) (es : List AEdge) : Prop :=
  ∀ e ∈ es, (∃ n ∈ ns, n.id = e.source) ∧ (∃ n ∈ ns, n.id = e.target)

lemma graphClosed_iff (ns : List JNode) (es : List AEdge) :
    graphClosed ns es = true ↔ ClosedP ns es := by
  simp [graphClosed, ClosedP, List.all_eq_true, List.any_eq_true, Bool.and_eq_true]

lemma exists_id_iff (ns : List JNode) (s : String) :
    (∃ n ∈ ns, n.id = s) ↔ s ∈ ns.map (fun n => n.id) := by
  simp [List.mem_map]

lemma modifyNode_ok_id {m : Modification} {n n' : JNode}
    (h : modifyNode m n = .ok n') : n'.id = n.id := by
  unfold modifyNode at h
  cases h1 : jsOrDataField m.label n.data (fun nd => nd.label) <;> rw [h1] at h
  · cases h
  · cases h2 : jsOrDataField m.product n.data (fun nd => nd.product) <;> rw [h2] at h
    · cases h
    · cases h3 : jsOrDataField m.mtype n.data (fun nd => nd.ntype) <;> rw [h3] at h
      · cases h
      · cases h; rfl

lemma modifyFirst_map_id {m : Modification} {nid : String} :
    ∀ {ns ns' : List JNode}, modifyFirst m nid ns = .ok ns' →
      ns'.map (fun n => n.id) = ns.map (fun n => n.id) := by
  intro ns
  induction ns with
  | nil => intro ns' h; cases h; rfl
  | cons n rest ih =>
    intro ns' h
    unfold modifyFirst at h
    by_cases hid : n.id = nid
    · rw [if_pos hid] at h
      cases hm : modifyNode m n <;> rw [hm] at h
      · cases h
      · cases h
        simp [modifyNode_ok_id hm]
    · rw [if_neg hid] at h
      cases hr : modifyFirst m nid rest <;> rw [hr] at h
      · cases h
      · cases h
        simp [ih hr]

lemma applyModStep_closed {now : Nat} {acc acc' : List JNode × List AEdge}
    {m : Modification} (h : applyModStep now acc m = .ok acc')
    (hc : ClosedP acc.1 acc.2) : ClosedP acc'.1 acc'.2 := by
  unfold applyModStep at h
  by_cases ha : m.action = some "add"
  · rw [if_pos ha] at h
    cases h
    intro e he
    obtain ⟨⟨n1, hn1, hi1⟩, ⟨n2, hn2, hi2⟩⟩ := hc e he
    exact ⟨⟨n1, List.mem_append_left _ hn1, hi1⟩, ⟨n2, List.mem_append_left _ hn2, hi2⟩⟩
  · rw [if_neg ha] at h
    by_cases hr : m.action = some "remove"
    · rw [if_pos hr] at h
      cases hn : m.nodeId with
      | none => rw [hn] at h; cases h; exact hc
      | some nid =>
        rw [hn] at h
        cases h
        intro e he
        rw [List.mem_filter] at he
        obtain ⟨he, hcond⟩ := he
        simp only [Bool.and_eq_true, decide_eq_true_eq] at hcond
        obtain ⟨⟨n1, hn1, hi1⟩, ⟨n2, hn2, hi2⟩⟩ := hc e he
        refine ⟨⟨n1, ?_, hi1⟩, ⟨n2, ?_, hi2⟩⟩
        · rw [List.mem_filter]
          exact ⟨hn1, by simp [hi1, hcond.1]⟩
        · rw [List.mem_filter]
          exact ⟨hn2, by simp [hi2, hcond.2]⟩
    · rw [if_neg hr] at h
      by_cases hm : m.action = some "modify"
      · rw [if_pos hm] at h
        cases hn : m.nodeId with
        | none => rw [hn] at h; cases h; exact hc
        | some nid =>
          rw [hn] at h
          dsimp only at h
          cases hf : modifyFirst m nid acc.1 with
          | error e => rw [hf] at h; cases h
          | ok ns' =>
            rw [hf] at h
            cases h
            intro e he
            obtain ⟨h1, h2⟩ := hc e he
            rw [exists_id_iff] at h1 h2
            rw [← modifyFirst_map_id hf] at h1 h2
            rw [← exists_id_iff] at h1 h2
            exact ⟨h1, h2⟩
      · rw [if_neg hm] at h
        cases h
        exact hc

lemma foldlM_applyModStep_closed {now : Nat} :
    ∀ {mods : List Modification} {acc acc' : List JNode × List AEdge},
      List.foldlM (applyModStep now) acc mods = .ok acc' →
      ClosedP acc.1 acc.2 → ClosedP acc'.1 acc'.2 := by
  intro mods
  induction mods with
  | nil =>
    intro acc acc' h hc
    rw [List.foldlM_nil] at h
    cases h
    exact hc
  | cons m rest ih =>
    intro acc acc' h hc
    rw [List.foldlM_cons] at h
    cases hstep : applyModStep now acc m <;>
      rw [hstep] at h <;> simp only [bind, Except.bind] at h
    · cases h
    · exact ih h (applyModStep_closed hstep hc)

lemma addNewEdges_closed {now : Nat} {rand : String} {ns : List JNode} :
    ∀ {nes : List NewEdgeSpec} {es : List AEdge},
      ClosedP ns es → ClosedP ns (addNewEdges now rand ns es nes) := by
  intro nes
  induction nes with
  | nil => intro es hc; exact hc
  | cons e rest ih =>
    intro es hc
    show ClosedP ns (List.foldl _ _ (e :: rest))
    rw [List.foldl_cons]
    apply ih
    cases hs : e.source <;> cases ht : e.target <;> simp only [hs, ht]
    · exact hc
    · exact hc
    · exact hc
    case some.some s t =>
      by_cases h1 : ns.any (fun n => n.id = s) = true
      · rw [if_pos h1]
        by_cases h2 : ns.any (fun n => n.id = t) = true
        · rw [if_pos h2]
          intro ed hed
          rw [List.mem_append] at hed
          cases hed with
          | inl hl => exact hc ed hl
          | inr hr =>
            rw [List.mem_singleton] at hr
            subst hr
            simp only [List.any_eq_true, decide_eq_true_eq] at h1 h2
            exact ⟨h1, h2⟩
        · rw [if_neg h2]; exact hc
      · rw [if_neg h1]; exact hc

lemma filter_eq_self_of_length {α : Type} {p : α → Bool} :
    ∀ {l : List α}, (l.filter p).length = l.length → l.filter p = l := by
  intro l
  induction l with
  | nil => intro _; rfl
  | cons a rest ih =>
    intro h
    by_cases hp : p a = true
    · rw [List.filter_cons_of_pos hp] at h ⊢
      rw [List.length_cons, List.length_cons] at h
      rw [ih (Nat.succ_injective h)]
    · rw [List.filter_cons_of_neg (by simpa using hp)] at h
      have := List.length_filter_le p rest
      rw [List.length_cons] at h
      omega

lemma userFilterPhase_fst (ns : List JNode) (es : List AEdge) :
    (userFilterPhase ns es).1 = ns.filter (fun n => !(isUserNode n)) := by
  by_cases h : ns.length ≠ (ns.filter (fun n => !(isUserNode n))).length <;>
    simp [userFilterPhase, h]

lemma userFilterPhase_closed {ns : List JNode} {es : List AEdge}
    (hc : ClosedP ns es) :
    ClosedP (userFilterPhase ns es).1 (userFilterPhase ns es).2 := by
  by_cases h : ns.length ≠ (ns.filter (fun n => !(isUserNode n))).length
  · simp only [userFilterPhase, if_pos h]
    intro e he
    rw [List.mem_filter] at he
    obtain ⟨_, hcond⟩ := he
    rw [Bool.and_eq_true] at hcond
    constructor
    · rw [exists_id_iff]
      have h1 := hcond.1
      rw [List.elem_iff] at h1
      exact h1
    · rw [exists_id_iff]
      have h2 := hcond.2
      rw [List.elem_iff] at h2
      exact h2
  · simp only [userFilterPhase, if_neg h]
    push_neg at h
    have heq : ns.filter (fun n => !(isUserNode n)) = ns :=
      filter_eq_self_of_length h.symm
    rw [heq]
    exact hc

lemma applyPlan_ok_closed {arch : Architecture} {plan : ModificationPlan}
    {now : Nat} {rand : String} {arch' : Architecture}
    (h : applyPlan arch plan now rand = .ok arch')
    (hc : ClosedP arch.nodes arch.edges) : ClosedP arch'.nodes arch'.edges := by
  unfold applyPlan at h
  cases hf : plan.modifications.foldlM (applyModStep now) (arch.nodes, arch.edges) <;>
    rw [hf] at h
  · cases h
  case ok acc =>
    cases h
    exact userFilterPhase_closed
      (addNewEdges_closed (foldlM_applyModStep_closed hf hc))

lemma applyPlan_ok_no_user {arch : Architecture} {plan : ModificationPlan}
    {now : Nat} {rand : String} {arch' : Architecture}
    (h : applyPlan arch plan now rand = .ok arch') :
    ∀ n ∈ arch'.nodes, isUserNode n = false := by
  unfold applyPlan at h
  cases hf : plan.modifications.foldlM (applyModStep now) (arch.nodes, arch.edges) <;>
    rw [hf] at h
  · cases h
  case ok acc =>
    cases h
    intro n hn
    simp only [userFilterPhase_fst] at hn
    rw [List.mem_filter] at hn
    simpa using hn.2

example : (fixModification { product := some "redis", label := some "Cache" }).product
    = some "Azure Redis Cache" := by rfl
example : (fixModification { product := some "power bi", label := some "BI" }).product
    = some "Power BI" := by rfl
example : (fixModification { product := some "power bi pro", label := some "BI" }).product
    = some "power bi pro" := by rfl
example : (fixModification { product := some "Contoso Queue", label := some "Q" }).product
    = some "Azure Contoso Queue" := by rfl
example : (fixModification { product := some "Azure Functions", label := some "F" }).product
    = some "Azure Functions" := by rfl
example : (fixModification {}).label = some "New Service" := by rfl
example : (fixModification {}).product = some "Azure New Service" := by rfl

/-! ## Concrete fixtures used by the claim theorems -/

/-- A model synthesis output whose only edge dangles: its target `db` is
not among the nodes. -/
def danglingContent : GenContent :=
  { nodes := [{ id := "web", label := "Web App", product := "Azure App Service",
                ntype := "compute" }]
    edges := [{ source := "web", target := "db", label := "SQL Queries" }]
    description := "one node, one dangling edge" }

/-- A model synthesis output containing a human-actor node. -/
def userNodeContent : GenContent :=
  { nodes := [{ id := "ds", label := "Data Scientist", product := "Person",
                ntype := "other" }]
    edges := []
    description := "a human actor" }

def apiNode : JNode :=
  { id := "api", label := "API Gateway", product := "Azure API Management",
    ntype := "gateway" }

def dbNode : JNode :=
  { id := "db", label := "Orders DB", product := "Azure SQL Database",
    ntype := "database" }

def archApiDb : Architecture :=
  { id := "arch_1", nodes := [apiNode, dbNode]
    edges := [{ source := "api", target := "db", label := "SQL Queries" }]
    description := "api and db", components := [] }

/-- An edit plan adding a cache node, one valid edge, and one edge whose
target does not exist. -/
def planAddCache : ModificationPlan :=
  { description := "add a cache"
    modifications := [{ action := some "add", nodeId := some "cache",
                        label := some "Cache Layer",
                        product := some "Azure Redis Cache",
                        mtype := some "database" }]
    newEdges := [{ source := some "api", target := some "cache",
                   label := some "Cache Lookup" },
                 { source := some "api", target := some "ghost",
                   label := some "Dropped Edge" }] }

def endUsersNode : JNode :=
  { id := "u", label := "End Users", product := "User", ntype := "user" }

def archWithUser : Architecture :=
  { id := "arch_2", nodes := [apiNode, endUsersNode]
    edges := [{ source := "u", target := "api", label := "HTTPS Requests" }]
    description := "with a user node", components := [] }

def planNoop : ModificationPlan :=
  { description := "no-op", modifications := [], newEdges := [] }

def gatewayA : JNode :=
  { id := "a", label := "Ingress", product := "Azure Front Door", ntype := "gateway" }

def computeB : JNode :=
  { id := "b", label := "Processing", product := "Azure Functions", ntype := "compute" }

def storageC : JNode :=
  { id := "c", label := "Archive", product := "Azure Blob Storage", ntype := "storage" }

/-- The claim C4 graph: nodes `{a, b, c}`, edges `{a→b, b→c}`. -/
def archABC : Architecture :=
  { id := "arch_3", nodes := [gatewayA, computeB, storageC]
    edges := [{ source := "a", target := "b", label := "Events" },
              { source := "b", target := "c", label := "Blobs" }]
    description := "chain", components := [] }

def planRemoveB : ModificationPlan :=
  { description := "remove b"
    modifications := [{ action := some "remove", nodeId := some "b" }]
    newEdges := [] }

def dbNodeOnly : JNode :=
  { id := "sqldb", label := "Database", product := "Azure SQL Database",
    ntype := "database" }

def archDbOnly : Architecture :=
  { id := "arch_4", nodes := [dbNodeOnly], edges := []
    description := "one db", components := [] }

/-- A modify payload carrying all three fields. -/
def planModifyDb : ModificationPlan :=
  { description := "rename db"
    modifications := [{ action := some "modify", nodeId := some "sqldb",
                        label := some "Primary DB",
                        product := some "Azure Cosmos DB",
                        mtype := some "database" }]
    newEdges := [] }

/-- The same modify payload with the `type` field omitted. -/
def planModifyDbNoType : ModificationPlan :=
  { description := "rename db"
    modifications := [{ action := some "modify", nodeId := some "sqldb",
                        label := some "Primary DB",
                        product := some "Azure Cosmos DB" }]
    newEdges := [] }

/-- A model response wrapping valid JSON in a code fence. -/
def fencedResponse : String :=
  "```json\n\x7b\"description\": \"ok\", \"modifications\": []\x7d\n```"

/-- A modification whose unmapped product contains "power bi". -/
def powerBiProMod : Modification :=
  { action := some "add", nodeId := some "n1", label := some "Reporting"
    product := some "power bi pro" }

/-- The `modifications` field decodes only when present and an array. -/
def modificationsFieldValid (j : Json) : Bool :=
  match j.getField "modifications" with
  | some (.arr _) => true
  | _ => false

example : (detectIntentWithPatterns "zzz" true).intent = .generate_architecture := by rfl
example : (detectIntentWithPatterns "zzz" true).confidence = mkRat 3 10 := by rfl
example : parseIntentResponse "\x7b\"intent\": \"MODIFY-ARCHITECTURE\"\x7d"
    = some { intent := .modify_architecture, confidence := min (max (mkRat 1 2) 0) 1,
             explanation := none } := by rfl
example : parseIntentResponse "\x7b\"intent\": \"banana\"\x7d" = none := by rfl

/-! ## Lemmas about the fallback classifier -/

/-- The adjusted per-intent score as the amended specification words it:
the count of vocabulary hits in the lower-cased utterance, multiplied by
0.1 for explain/modify when no architecture exists, plus a flat bonus of
2 for ask-question when the utterance contains a question mark. -/
def specAdjustedScore (message : String) (hasArchitecture : Bool)
    (i : ChatIntent) : ℚ :=
  let lm := strToLower message
  let hits : ℚ := ((INTENT_PATTERNS i).countP (fun p => strContains lm p) : ℕ)
  let afterPenalty :=
    if !hasArchitecture &&
        (i == ChatIntent.explain_component || i == ChatIntent.modify_architecture)
    then hits * (mkRat 1 10) else hits
  if i == ChatIntent.ask_question && strContains lm "?" then afterPenalty + 2
  else afterPenalty

lemma foldl_count_aux (lm : String) :
    ∀ (pats : List String) (a : ℚ),
      pats.foldl (fun acc p => if strContains lm p then acc + 1 else acc) a
        = a + ((pats.countP (fun p => strContains lm p) : ℕ) : ℚ) := by
  intro pats
  induction pats with
  | nil => intro a; simp
  | cons p rest ih =>
    intro a
    rw [List.foldl_cons, List.countP_cons]
    by_cases hc : strContains lm p = true
    · rw [if_pos hc, ih, if_pos hc]
      push_cast
      ring
    · rw [if_neg hc, ih, if_neg hc]
      simp

lemma rawScore_eq_countP (lm : String) (pats : List String) :
    rawScore lm pats = ((pats.countP (fun p => strContains lm p) : ℕ) : ℚ) := by
  unfold rawScore
  rw [foldl_count_aux]
  simp

lemma scoreOf_scoresFor (message : String) (hasArchitecture : Bool) (i : ChatIntent) :
    scoreOf (scoresFor (strToLower message) hasArchitecture) i
      = specAdjustedScore message hasArchitecture i := by
  cases i <;> cases hasArchitecture <;>
    by_cases hq : strContains (strToLower message) "?" = true <;>
    simp [scoresFor, scoreOf, specAdjustedScore, rawScore_eq_countP, hq]

lemma scoreOf_le_maxScore (s : Scores) (i : ChatIntent) :
    scoreOf s i ≤ maxScore s := by
  cases i <;> simp [scoreOf, maxScore, le_max_iff, le_refl]

lemma maxScore_eq_some_field (s : Scores) :
    maxScore s = s.generate ∨ maxScore s = s.ask ∨ maxScore s = s.explain ∨
      maxScore s = s.modify ∨ maxScore s = s.general := by
  unfold maxScore
  rcases max_choice s.generate (max s.ask (max s.explain (max s.modify s.general)))
    with h1 | h1
  · exact Or.inl h1
  rcases max_choice s.ask (max s.explain (max s.modify s.general)) with h2 | h2
  · exact Or.inr (Or.inl (h1.trans h2))
  rcases max_choice s.explain (max s.modify s.general) with h3 | h3
  · exact Or.inr (Or.inr (Or.inl ((h1.trans h2).trans h3)))
  rcases max_choice s.modify s.general with h4 | h4
  · exact Or.inr (Or.inr (Or.inr (Or.inl (((h1.trans h2).trans h3).trans h4))))
  · exact Or.inr (Or.inr (Or.inr (Or.inr (((h1.trans h2).trans h3).trans h4))))

/-- The `Object.entries(scores).find(...)` step always succeeds (so the
`||` default after it is dead code), returns an intent achieving the
maximal score, and — scanning in enumeration order — every earlier intent
scores strictly below the maximum. -/
lemma bestIntent_spec (s : Scores) (b : ChatIntent) :
    scoreOf s ((intentOrder.find? (fun i => scoreOf s i == maxScore s)).getD b)
        = maxScore s ∧
    ∀ i, intentIdx i <
        intentIdx ((intentOrder.find? (fun i => scoreOf s i == maxScore s)).getD b) →
      scoreOf s i < maxScore s := by
  by_cases h1 : scoreOf s ChatIntent.generate_architecture = maxScore s
  · have hf : intentOrder.find? (fun i => scoreOf s i == maxScore s)
        = some ChatIntent.generate_architecture := by
      rw [intentOrder]
      exact List.find?_cons_of_pos _ (by simpa using h1)
    rw [hf]
    refine ⟨h1, ?_⟩
    intro i hi
    simp only [Option.getD_some] at hi
    cases i <;> simp [intentIdx] at hi
  · by_cases h2 : scoreOf s ChatIntent.ask_question = maxScore s
    · have hf : intentOrder.find? (fun i => scoreOf s i == maxScore s)
          = some ChatIntent.ask_question := by
        rw [intentOrder]
        rw [List.find?_cons_of_neg _ (by simpa using h1)]
        exact List.find?_cons_of_pos _ (by simpa using h2)
      rw [hf]
      refine ⟨h2, ?_⟩
      intro i hi
      simp only [Option.getD_some] at hi
      cases i <;> simp [intentIdx] at hi
      exact lt_of_le_of_ne (scoreOf_le_maxScore s _) h1
    · by_cases h3 : scoreOf s ChatIntent.explain_component = maxScore s
      · have hf : intentOrder.find? (fun i => scoreOf s i == maxScore s)
            = some ChatIntent.explain_component := by
          rw [intentOrder]
          rw [List.find?_cons_of_neg _ (by simpa using h1)]
          rw [List.find?_cons_of_neg _ (by simpa using h2)]
          exact List.find?_cons_of_pos _ (by simpa using h3)
        rw [hf]
        refine ⟨h3, ?_⟩
        intro i hi
        simp only [Option.getD_some] at hi
        cases i <;> simp [intentIdx] at hi
        · exact lt_of_le_of_ne (scoreOf_le_maxScore s _) h1
        · exact lt_of_le_of_ne (scoreOf_le_maxScore s _) h2
      · by_cases h4 : scoreOf s ChatIntent.modify_architecture = maxScore s
        · have hf : intentOrder.find? (fun i => scoreOf s i == maxScore s)
              = some ChatIntent.modify_architecture := by
            rw [intentOrder]
            rw [List.find?_cons_of_neg _ (by simpa using h1)]
            rw [List.find?_cons_of_neg _ (by simpa using h2)]
            rw [List.find?_cons_of_neg _ (by simpa using h3)]
            exact List.find?_cons_of_pos _ (by simpa using h4)
          rw [hf]
          refine ⟨h4, ?_⟩
          intro i hi
          simp only [Option.getD_some] at hi
          cases i <;> simp [intentIdx] at hi
          · exact lt_of_le_of_ne (scoreOf_le_maxScore s _) h1
          · exact lt_of_le_of_ne (scoreOf_le_maxScore s _) h2
          · exact lt_of_le_of_ne (scoreOf_le_maxScore s _) h3
        · by_cases h5 : scoreOf s ChatIntent.general_chat = maxScore s
          · have hf : intentOrder.find? (fun i => scoreOf s i == maxScore s)
                = some ChatIntent.general_chat := by
              rw [intentOrder]
              rw [List.find?_cons_of_neg _ (by simpa using h1)]
              rw [List.find?_cons_of_neg _ (by simpa using h2)]
              rw [List.find?_cons_of_neg _ (by simpa using h3)]
              rw [List.find?_cons_of_neg _ (by simpa using h4)]
              exact List.find?_cons_of_pos _ (by simpa using h5)
            rw [hf]
            refine ⟨h5, ?_⟩
            intro i hi
            simp only [Option.getD_some] at hi
            cases i <;> simp [intentIdx] at hi
            · exact lt_of_le_of_ne (scoreOf_le_maxScore s _) h1
            · exact lt_of_le_of_ne (scoreOf_le_maxScore s _) h2
            · exact lt_of_le_of_ne (scoreOf_le_maxScore s _) h3
            · exact lt_of_le_of_ne (scoreOf_le_maxScore s _) h4
          · exfalso
            rcases maxScore_eq_some_field s with h | h | h | h | h
            · exact h1 h.symm
            · exact h2 h.symm
            · exact h3 h.symm
            · exact h4 h.symm
            · exact h5 h.symm

/-! ## Lemmas about brace extraction -/

lemma string_data_append (a b : String) : (a ++ b).data = a.data ++ b.data := rfl

lemma idxOfAux_cons_pos {p : Char → Bool} {c : Char} {l : List Char}
    (h : p c = true) : idxOfAux p (c :: l) = some 0 := by
  simp [idxOfAux, h]

lemma idxOfAux_append_none {p : Char → Bool} {l₂ : List Char} :
    ∀ {l₁ : List Char}, (∀ c ∈ l₁, p c = false) →
      idxOfAux p (l₁ ++ l₂) = (idxOfAux p l₂).map (· + l₁.length) := by
  intro l₁
  induction l₁ with
  | nil =>
    intro _
    simp only [List.nil_append, List.length_nil]
    cases h : idxOfAux p l₂ <;> simp
  | cons c rest ih =>
    intro h
    have hc : p c = false := h c (by simp)
    rw [List.cons_append]
    show (if p c then some 0 else (idxOfAux p (rest ++ l₂)).map (· + 1)) = _
    rw [hc]
    simp only [Bool.false_eq_true, if_false]
    rw [ih (fun x hx => h x (by simp [hx]))]
    cases hl : idxOfAux p l₂ with
    | none => simp
    | some v =>
      simp only [Option.map_some', List.length_cons]
      exact congrArg some (by omega)

/-! ## Lemmas about the product fix-up -/

lemma defaultLabelProduct_product {m : Modification} {p : String}
    (hp : m.product = some p) (hpe : p ≠ "") :
    (defaultLabelProduct m).product = some p := by
  unfold defaultLabelProduct
  split
  · simp [hp, jsOrS, hpe]
  · exact hp

lemma defaultLabelProduct_label_of_none {m : Modification}
    (hl : m.label = none) : (defaultLabelProduct m).label = some "New Service" := by
  unfold defaultLabelProduct
  rw [if_pos]
  · simp [hl, jsOrS]
  · simp [hl, truthyS]

lemma renameAzureProduct_label (m : Modification) :
    (renameAzureProduct m).label = m.label := by
  unfold renameAzureProduct
  cases m.product with
  | none => rfl
  | some p =>
    dsimp only
    split
    · cases List.lookup (strToLower p) azureServiceMap with
      | none =>
        dsimp only
        split <;> rfl
      | some a => rfl
    · rfl

lemma renameAzureProduct_spec (m : Modification) (p : String)
    (hp : m.product = some p) (hpe : p ≠ "") :
    (strStartsWith (strToLower p) "azure" = true →
      (renameAzureProduct m).product = some p) ∧
    (strContains (strToLower p) "microsoft" = true →
      (renameAzureProduct m).product = some p) ∧
    (∀ q, strStartsWith (strToLower p) "azure" = false →
      strContains (strToLower p) "microsoft" = false →
      List.lookup (strToLower p) azureServiceMap = some q →
      (renameAzureProduct m).product = some q) ∧
    (strStartsWith (strToLower p) "azure" = false →
      strContains (strToLower p) "microsoft" = false →
      List.lookup (strToLower p) azureServiceMap = none →
      strContains (strToLower p) "power bi" = true →
      (renameAzureProduct m).product = some p) ∧
    (strStartsWith (strToLower p) "azure" = false →
      strContains (strToLower p) "microsoft" = false →
      List.lookup (strToLower p) azureServiceMap = none →
      strContains (strToLower p) "power bi" = false →
      (renameAzureProduct m).product = some ("Azure " ++ p)) := by
  unfold renameAzureProduct
  rw [hp]
  dsimp only
  refine ⟨?_, ?_, ?_, ?_, ?_⟩
  · intro hs
    rw [if_neg (by simp [hs])]
    exact hp
  · intro hms
    rw [if_neg (by simp [hms])]
    exact hp
  · intro q hs hms hlk
    rw [if_pos (by simp [hs, hms, hpe])]
    rw [hlk]
  · intro hs hms hlk hpb
    rw [if_pos (by simp [hs, hms, hpe])]
    rw [hlk]
    dsimp only
    rw [if_neg (by simp [hpb])]
    exact hp
  · intro hs hms hlk hpb
    rw [if_pos (by simp [hs, hms, hpe])]
    rw [hlk]
    dsimp only
    rw [if_pos (by simp [hpb])]

/-! ## Claim theorems -/

/-- C1 (counterexample): the synthesis endpoint keeps an edge whose target
id is missing from the node set — the returned graph of
`danglingContent` still has its one dangling edge and violates the
closed-edges invariant, refuting the claim that both operations drop such
edges. -/
theorem generateArchitecture_keeps_dangling_edge :
    (generateArchitecture danglingContent 0).edges.length = 1 ∧
    graphClosed (generateArchitecture danglingContent 0).nodes
      (generateArchitecture danglingContent 0).edges = false :=
  ⟨by rfl, by rfl⟩

/-- C1 (amended): the edit operation preserves the closed-edges invariant:
whenever the current graph has no dangling edge, any graph it returns has
none either (proposed new edges with a missing endpoint are dropped); the
synthesis endpoint, by contrast, passes the model's edges through
unchecked. -/
theorem edit_preserves_edge_closure (arch : Architecture) (plan : ModificationPlan)
    (now : Nat) (rand : String)
    (h : graphClosed arch.nodes arch.edges = true) :
    ((runModificationPlan arch plan now rand).toOption.all
      (fun a => graphClosed a.nodes a.edges)) = true := by
  unfold runModificationPlan
  cases hp : applyPlan arch (fixPlan plan) now rand with
  | error e => rfl
  | ok arch' =>
    have hcl := applyPlan_ok_closed hp ((graphClosed_iff _ _).mp h)
    simp only [Except.toOption, Option.all]
    exact (graphClosed_iff _ _).mpr hcl

/-- Witness for C1's amended theorem: a concrete successful edit (add a
cache plus one valid and one dangling proposed edge) on a closed graph. -/
theorem edit_preserves_edge_closure_witness :
    ((runModificationPlan archApiDb planAddCache 3 "rxz").toOption.all
      (fun a => graphClosed a.nodes a.edges)) = true :=
  edit_preserves_edge_closure archApiDb planAddCache 3 "rxz" (by rfl)

/-- C2 (counterexample): the synthesis endpoint keeps a node whose label
matches the disallowed-actor lexicon ("Data Scientist"), refuting the
claim that both operations drop such nodes. -/
theorem generateArchitecture_keeps_user_node :
    (generateArchitecture userNodeContent 0).nodes.any isUserNode = true ∧
    (generateArchitecture userNodeContent 0).nodes.any
      (fun n => strContains (strToLower n.label) "scientist") = true :=
  ⟨by rfl, by rfl⟩

/-- C2 (amended): the edit operation's returned graph never contains a
node matching its user-node test (`type` exactly "user", product
containing "user", or label containing "user"/"scientist"/"developer"/
"admin", case-insensitively), and — given a closed input graph — every
returned edge links two surviving nodes, so no edge touching a dropped
node remains; the synthesis endpoint applies no such filter. -/
theorem edit_removes_user_nodes_and_incident_edges (arch : Architecture)
    (plan : ModificationPlan) (now : Nat) (rand : String)
    (h : graphClosed arch.nodes arch.edges = true) :
    ((runModificationPlan arch plan now rand).toOption.all
      (fun a => a.nodes.all (fun n => !(isUserNode n)) &&
                graphClosed a.nodes a.edges)) = true := by
  unfold runModificationPlan
  cases hp : applyPlan arch (fixPlan plan) now rand with
  | error e => rfl
  | ok arch' =>
    simp only [Except.toOption, Option.all, Bool.and_eq_true]
    constructor
    · rw [List.all_eq_true]
      intro n hn
      simpa using applyPlan_ok_no_user hp n hn
    · exact (graphClosed_iff _ _).mpr
        (applyPlan_ok_closed hp ((graphClosed_iff _ _).mp h))

/-- Witness for C2's amended theorem: an edit (here with an empty plan) of
a graph holding an "End Users" node drops that node and its incident
edge. -/
theorem edit_removes_user_nodes_and_incident_edges_witness :
    ((runModificationPlan archWithUser planNoop 9 "rz").toOption.all
      (fun a => a.nodes.all (fun n => !(isUserNode n)) &&
                graphClosed a.nodes a.edges)) = true :=
  edit_removes_user_nodes_and_incident_edges archWithUser planNoop 9 "rz" (by rfl)

/-- C3: when the edit model response is unparseable, or parses to a value
whose `modifications` field is missing or not an array, the whole edit
operation returns an error: the throw happens before any graph state is
assembled, the catch only posts a message, and no architecture update is
emitted — the caller's graph is untouched. -/
theorem edit_parse_failure_leaves_graph_unmodified (arch : Architecture)
    (aiResponse : String) (now : Nat) (rand : String)
    (h : ∀ j, jsonParse (cleanJson aiResponse) = some j →
      modificationsFieldValid j = false) :
    (handleArchitectureModification arch aiResponse now rand).toOption = none := by
  have hplan : ∃ e, parseModificationPlan aiResponse = .error e := by
    unfold parseModificationPlan
    cases hp : jsonParse (cleanJson aiResponse) with
    | none => exact ⟨_, rfl⟩
    | some j =>
      show ∃ e, planOfJson j = .error e
      have hv := h j hp
      unfold modificationsFieldValid at hv
      unfold planOfJson
      cases hm : j.getField "modifications" with
      | none => exact ⟨_, rfl⟩
      | some v =>
        rw [hm] at hv
        cases v with
        | arr l => simp at hv
        | null => exact ⟨_, rfl⟩
        | bool b => exact ⟨_, rfl⟩
        | num q => exact ⟨_, rfl⟩
        | str s => exact ⟨_, rfl⟩
        | obj o => exact ⟨_, rfl⟩
  obtain ⟨e, he⟩ := hplan
  unfold handleArchitectureModification
  rw [he]
  rfl

/-- Witness for C3: a plain-prose model response fails to parse and the
edit operation reports an error. -/
theorem edit_parse_failure_leaves_graph_unmodified_witness :
    (handleArchitectureModification archApiDb
      "Sorry, I cannot produce JSON." 5 "rw").toOption = none :=
  edit_parse_failure_leaves_graph_unmodified archApiDb
    "Sorry, I cannot produce JSON." 5 "rw"
    (by
      intro j hj
      rw [show jsonParse (cleanJson "Sorry, I cannot produce JSON.") = none from rfl] at hj
      cases hj)

/-- C4: on the graph with nodes `{a, b, c}` and edges `{a→b, b→c}`, the
edit operation's `remove(b)` yields node set `{a, c}` and an empty edge
set: the node is deleted and both incident edges are cascaded away. -/
theorem remove_cascades_incident_edges :
    (runModificationPlan archABC planRemoveB 0 "r0").toOption.map
      (fun a => (a.nodes.map (fun n => n.id), a.edges)) = some (["a", "c"], []) := by
  rfl

/-- C5 (counterexample): on the utterance "zzz" with an existing
architecture, every intent's score is zero, yet the fallback classifier
returns `generate_architecture` — not the `ask_question` default the
claim predicts — and confidence 0.3 rather than the claimed top-score
quotient 0.  The `find` over the score table always succeeds (it scans
zero scores too), so the claimed zero-score default is dead code. -/
theorem fallback_zero_score_default_cex :
    maxScore (scoresFor (strToLower "zzz") true) = 0 ∧
    (detectIntentWithPatterns "zzz" true).intent = .generate_architecture ∧
    (detectIntentWithPatterns "zzz" true).intent ≠ .ask_question ∧
    (detectIntentWithPatterns "zzz" true).confidence = mkRat 3 10 ∧
    mkRat 3 10 ≠ (0 : ℚ) :=
  ⟨by rfl, by rfl, by decide, by rfl, by decide⟩

/-- C5 (amended): the deterministic fallback computes per-intent scores
exactly as specified (keyword hit counts over the lower-cased utterance,
the 0.1 penalty on explain/modify without an architecture, the flat +2
ask-question bonus for a question mark), picks an intent achieving the
maximal score with ties broken by enumeration order (every earlier intent
scores strictly lower) — which, when all scores are zero, makes the
result `generate` regardless of the architecture flag, the claimed
ask-question/generate default being dead code — and reports confidence
`maxScore / 3` capped at 1 when the maximum is positive, and 0.3
otherwise. -/
theorem detectIntentWithPatterns_characterization (message : String)
    (hasArchitecture : Bool) :
    scoreOf (scoresFor (strToLower message) hasArchitecture)
        (detectIntentWithPatterns message hasArchitecture).intent
      = maxScore (scoresFor (strToLower message) hasArchitecture) ∧
    (∀ i, intentIdx i
        < intentIdx (detectIntentWithPatterns message hasArchitecture).intent →
      scoreOf (scoresFor (strToLower message) hasArchitecture) i
        < maxScore (scoresFor (strToLower message) hasArchitecture)) ∧
    (detectIntentWithPatterns message hasArchitecture).confidence
      = (if maxScore (scoresFor (strToLower message) hasArchitecture) > 0
         then min (maxScore (scoresFor (strToLower message) hasArchitecture) / 3) 1
         else mkRat 3 10) ∧
    (∀ i, scoreOf (scoresFor (strToLower message) hasArchitecture) i
      = specAdjustedScore message hasArchitecture i) := by
  have hb := bestIntent_spec (scoresFor (strToLower message) hasArchitecture)
    (if hasArchitecture then ChatIntent.ask_question
     else ChatIntent.generate_architecture)
  exact ⟨hb.1, hb.2, rfl, fun i => scoreOf_scoresFor message hasArchitecture i⟩

/-- Witness for C5's amended theorem at a concrete utterance. -/
theorem detectIntentWithPatterns_characterization_witness :
    scoreOf (scoresFor (strToLower "add a database") true)
        (detectIntentWithPatterns "add a database" true).intent
      = maxScore (scoresFor (strToLower "add a database") true) :=
  (detectIntentWithPatterns_characterization "add a database" true).1

/-- C6: a `modify` modification does not overwrite the node fields the
caller and renderer read.  With all three payload fields present, the
node's top-level `label`/`product`/`type` — the fields the renderer, the
user-node filter and the next edit prompt consume — keep their prior
values, and the payload lands in a `data` sub-object nothing reads; with
the `type` field absent, the edit throws a TypeError (reading
`node.data.type` of an undefined `data`) and the whole edit fails instead
of retaining prior values. -/
theorem modify_writes_unread_data_field :
    ((runModificationPlan archDbOnly planModifyDb 0 "r1").toOption.map
      (fun a => a.nodes.map (fun n => (n.label, n.product, n.ntype, n.data)))
      = some [("Database", "Azure SQL Database", "database",
          some { label := "Primary DB", product := "Azure Cosmos DB",
                 ntype := "database" })]) ∧
    (runModificationPlan archDbOnly planModifyDbNoType 0 "r1"
      = .error "TypeError: cannot read properties of undefined") :=
  ⟨by rfl, by rfl⟩

/-- C7 (counterexample): the synthesis endpoint's parse step rejects a
fence-wrapped JSON object (it calls `JSON.parse` on the raw content with
no stripping or extraction), while the edit path's cleaning pipeline
accepts the very same response — so the fence-tolerant parsing the claim
attributes to the Synthesizer lives only on the edit path. -/
theorem synthesis_parse_intolerant_of_fences :
    serverParseContent fencedResponse = none ∧
    (jsonParse (cleanJson fencedResponse)).isSome = true ∧
    (parseModificationPlan fencedResponse).toOption.isSome = true :=
  ⟨by rfl, by rfl, by rfl⟩

/-- C7 (amended): the fence-tolerant extraction lives on the edit path:
for any JSON object body `s` (starting with the open brace and ending
with the close brace) wrapped in prose `p`/`q` containing no interfering
braces, the edit path's brace extraction recovers exactly `s`; the
synthesis endpoint parses its content directly, so a wrapped response is
a hard parse failure there (see the counterexample theorem). -/
theorem extractBraces_recovers_wrapped_object (p s q : String)
    (hp : ∀ c ∈ p.data, c ≠ lbrace)
    (hq : ∀ c ∈ q.data, c ≠ rbrace)
    (h1 : s.data.head? = some lbrace)
    (h2 : s.data.getLast? = some rbrace)
    (hlen : 2 ≤ s.data.length) :
    extractBraces (p ++ s ++ q) = s := by
  obtain ⟨mid, hmid⟩ : ∃ mid, s.data = lbrace :: (mid ++ [rbrace]) := by
    cases hsd : s.data with
    | nil => rw [hsd] at hlen; simp at hlen
    | cons c tail =>
      rw [hsd] at h1 h2 hlen
      simp only [List.head?_cons, Option.some.injEq] at h1
      subst h1
      rcases List.eq_nil_or_concat tail with htail | ⟨mid, last, htail⟩
      · rw [htail] at hlen; simp at hlen
      · subst htail
        have hlast : (lbrace :: mid.concat last).getLast? = some last := by
          rw [List.concat_eq_append]
          rw [show lbrace :: (mid ++ [last]) = (lbrace :: mid) ++ [last] from rfl]
          exact List.getLast?_concat _
        rw [hlast] at h2
        simp only [Option.some.injEq] at h2
        subst h2
        exact ⟨mid, by rw [List.concat_eq_append]⟩
  unfold extractBraces
  set D := (p ++ s ++ q).data with hD
  have hdata : D = p.data ++ (lbrace :: (mid ++ [rbrace])) ++ q.data := by
    rw [hD, string_data_append, string_data_append, hmid]
  have hopen : idxOfAux (fun c => c = lbrace) D = some p.data.length := by
    rw [hdata, List.append_assoc]
    rw [idxOfAux_append_none (fun c hc => by simp [hp c hc])]
    rw [List.cons_append]
    rw [idxOfAux_cons_pos (by simp)]
    simp
  have hrev : D.reverse
      = q.data.reverse ++ (rbrace :: (mid.reverse ++ [lbrace] ++ p.data.reverse)) := by
    rw [hdata]
    simp [List.reverse_append, List.reverse_cons, List.append_assoc]
  have hclose0 : idxOfAux (fun c => c = rbrace) D.reverse = some q.data.length := by
    rw [hrev]
    rw [idxOfAux_append_none (fun c hc => by simp [hq c (List.mem_reverse.mp hc)])]
    rw [idxOfAux_cons_pos (by simp)]
    simp
  have hLen : D.length = p.data.length + (mid.length + 2) + q.data.length := by
    rw [hdata]
    simp [List.length_append, List.length_cons]
    omega
  rw [hopen, hclose0]
  simp only [Option.map_some']
  show (if p.data.length < D.length - 1 - q.data.length then
      String.mk ((D.drop p.data.length).take
        (D.length - 1 - q.data.length + 1 - p.data.length))
    else p ++ s ++ q) = s
  rw [if_pos (by omega)]
  have htake : D.length - 1 - q.data.length + 1 - p.data.length
      = (lbrace :: (mid ++ [rbrace])).length := by
    have hml : (lbrace :: (mid ++ [rbrace])).length = mid.length + 2 := by
      rw [List.length_cons, List.length_append]
      rfl
    rw [hml]
    omega
  rw [htake, hdata, List.append_assoc, List.drop_left, List.take_left]
  rw [← hmid]

/-- Witness for C7's amended theorem: a JSON object wrapped in prose is
recovered verbatim. -/
theorem extractBraces_recovers_wrapped_object_witness :
    extractBraces ("Here is the plan: " ++ "\x7b\"modifications\": []\x7d"
        ++ " Hope it helps.")
      = "\x7b\"modifications\": []\x7d" :=
  extractBraces_recovers_wrapped_object "Here is the plan: "
    "\x7b\"modifications\": []\x7d" " Hope it helps."
    (by decide) (by decide) (by rfl) (by rfl) (by decide)

/-- C8: the intent classifier never propagates a model-path failure: for
every utterance, flag, API key and call outcome — network error, non-OK
status, missing/empty content, unparseable JSON, or an unrecognized
intent label — `detectIntent` returns exactly the deterministic
fallback's result instead of throwing. -/
theorem detectIntent_resolves_on_failure (message : String)
    (hasArchitecture : Bool) (apiKey : Option String) (outcome : ModelCallOutcome)
    (h : modelCallFails outcome = true) :
    detectIntent message hasArchitecture apiKey outcome
      = detectIntentWithPatterns message hasArchitecture := by
  cases apiKey with
  | none => rfl
  | some k =>
    cases outcome with
    | networkError => rfl
    | httpError s => rfl
    | noContent => rfl
    | content s =>
      unfold modelCallFails at h
      rw [Option.isNone_iff_eq_none] at h
      show (match parseIntentResponse s with
        | some r => r
        | none => detectIntentWithPatterns message hasArchitecture)
        = detectIntentWithPatterns message hasArchitecture
      rw [h]

/-- Witness for C8: a syntactically valid model reply with the
unrecognized intent label "banana" falls back to pattern detection. -/
theorem detectIntent_resolves_on_failure_witness :
    detectIntent "add a redis cache" true (some "sk-key")
        (.content "\x7b\"intent\": \"banana\"\x7d")
      = detectIntentWithPatterns "add a redis cache" true :=
  detectIntent_resolves_on_failure "add a redis cache" true (some "sk-key")
    (.content "\x7b\"intent\": \"banana\"\x7d") (by rfl)

/-- C9: the deterministic fallback classifier is a pure function of its
two inputs — two calls with equal `(utterance, hasExistingArchitecture)`
pairs produce identical `IntentResult`s (same intent, confidence and
explanation). -/
theorem detectIntentWithPatterns_deterministic (m₁ m₂ : String) (h₁ h₂ : Bool)
    (hm : m₁ = m₂) (hh : h₁ = h₂) :
    detectIntentWithPatterns m₁ h₁ = detectIntentWithPatterns m₂ h₂ := by
  subst hm
  subst hh
  rfl

/-- Witness for C9 at a concrete call. -/
theorem detectIntentWithPatterns_deterministic_witness :
    detectIntentWithPatterns "add a cache" true
      = detectIntentWithPatterns "add a cache" true :=
  detectIntentWithPatterns_deterministic "add a cache" "add a cache" true true rfl rfl

/-- C10 (counterexample): a modification whose product is "power bi pro"
— which neither starts with "azure" nor contains "microsoft", and is
absent from the service map — is left unchanged by the product fix-up
rather than being given the "Azure " product name the claim predicts for
every unmapped product. -/
theorem fixModification_power_bi_exception :
    (fixModification powerBiProMod).product = some "power bi pro" ∧
    some "power bi pro" ≠ some ("Azure " ++ "power bi pro") :=
  ⟨by rfl, by decide⟩

/-- C10 (amended): for a present non-empty product, the edit operation's
fix-up keeps products that start with "azure" or contain "microsoft"
(case-insensitively); otherwise it replaces a product found in the fixed
`azureServiceMap` by its mapped Azure name, leaves an unmapped product
containing "power bi" unchanged, and gives every other unmapped product
the "Azure " name; a missing label is defaulted to "New Service". -/
theorem fixModification_characterization (m : Modification) (p : String)
    (hp : m.product = some p) (hpe : p ≠ "") :
    (strStartsWith (strToLower p) "azure" = true →
      (fixModification m).product = some p) ∧
    (strContains (strToLower p) "microsoft" = true →
      (fixModification m).product = some p) ∧
    (∀ q, strStartsWith (strToLower p) "azure" = false →
      strContains (strToLower p) "microsoft" = false →
      List.lookup (strToLower p) azureServiceMap = some q →
      (fixModification m).product = some q) ∧
    (strStartsWith (strToLower p) "azure" = false →
      strContains (strToLower p) "microsoft" = false →
      List.lookup (strToLower p) azureServiceMap = none →
      strContains (strToLower p) "power bi" = true →
      (fixModification m).product = some p) ∧
    (strStartsWith (strToLower p) "azure" = false →
      strContains (strToLower p) "microsoft" = false →
      List.lookup (strToLower p) azureServiceMap = none →
      strContains (strToLower p) "power bi" = false →
      (fixModification m).product = some ("Azure " ++ p)) ∧
    (m.label = none → (fixModification m).label = some "New Service") := by
  have hdp := defaultLabelProduct_product hp hpe
  have hspec := renameAzureProduct_spec (defaultLabelProduct m) p hdp hpe
  refine ⟨hspec.1, hspec.2.1, hspec.2.2.1, hspec.2.2.2.1, hspec.2.2.2.2, ?_⟩
  intro hl
  show (renameAzureProduct (defaultLabelProduct m)).label = some "New Service"
  rw [renameAzureProduct_label]
  exact defaultLabelProduct_label_of_none hl

/-- Witness for C10's amended theorem: the unqualified product "redis" of
a label-less modification is mapped to "Azure Redis Cache". -/
theorem fixModification_characterization_witness :
    (fixModification { label := none, product := some "redis" }).product
      = some "Azure Redis Cache" :=
  (fixModification_characterization { label := none, product := some "redis" } "redis"
      rfl (by decide)).2.2.1 "Azure Redis Cache" (by decide) (by decide) (by rfl)

end AiCloudDesigner
